import Mathlib

/-!
# Verification of `fib_circuit` (`src/circuits/circuit_naive.rs`)

Shallow embedding of the naive Fibonacci halo2 circuit:

* `Value F` embeds halo2's `Value<F>` (a lazily-known field element:
  `known`/`unknown`, with addition yielding `unknown` when either operand is).
* `FibChip.configure` / `FibCircuit.configure` embed the structural phase:
  three advice columns, one selector, equality enabled on all three advice
  columns, and the single gate `s * (a + b - c)`, registered against a
  `ConstraintSystem` record.  The gate's semantics is embedded by
  `Row.gateHolds` (the identity `a + b - c = 0` at every selected row).
* `FibChip.assign_row` embeds row assignment.  Each source call opens one
  fresh one-row region; under `SimpleFloorPlanner` the regions are stacked
  in order, so region `i` occupies absolute row `i = rows.length`.  The
  backend's fallibility of `assign_region` (a `Result` in the source,
  e.g. `NotEnoughRowsAvailable`) is abstracted by the boolean argument
  `fail`: when `true` the call returns the backend error.  The `calls`
  field of `SynthState` is ghost instrumentation recording the argument
  sequence of the `assign_row` calls; it constrains nothing.
* `FibCircuit.synthesize` embeds the synthesis loop, including:
  `self.k.map` (so an `unknown` k runs zero iterations), the `usize`
  subtraction `v - 1` in `(0..v-1)` (which panics on underflow when
  `v = 0`, debug semantics), and the `.unwrap()` on each `assign_row`
  result (a backend error panics instead of being propagated; the
  function's own result is always `Ok(())`).  `SynthOutcome` records
  whether synthesis returned `Ok`, returned `Err` (never produced by this
  code), or panicked, together with the table built so far.
* `instanceBindings` is the list of `layouter.constrain_instance` calls;
  the source's only such call is commented out, so the list stays empty.
-/

namespace FibNaive

/-- halo2 `Value<F>`: a deferred field element, either known or unknown. -/
inductive Value (F : Type) where
  | unknown : Value F
  | known : F → Value F
deriving DecidableEq, Repr

/-- Addition on `Value` (halo2 `Add for Value`): known only when both
operands are known. -/
def Value.add {F : Type} [Add F] : Value F → Value F → Value F
  | .known x, .known y => .known (x + y)
  | _, _ => .unknown

instance {F : Type} [Add F] : Add (Value F) := ⟨Value.add⟩

/-- Subtraction on `Value`, used only to state the gate identity. -/
def Value.sub {F : Type} [Sub F] : Value F → Value F → Value F
  | .known x, .known y => .known (x - y)
  | _, _ => .unknown

instance {F : Type} [Sub F] : Sub (Value F) := ⟨Value.sub⟩

/-- halo2 `AssignedCell<F, F>`: a column id, an absolute row index, and the
assigned value. -/
structure AssignedCell (F : Type) where
  col : Nat
  row : Nat
  val : Value F
deriving DecidableEq, Repr

/-- One row of the witness table: the values assigned in the three advice
columns `(a, b, c)` of `FibConfig`, plus the row's selector flag. -/
structure Row (F : Type) where
  a : Value F
  b : Value F
  c : Value F
  selector : Bool
deriving DecidableEq, Repr

/-- A copy (equality) constraint between two cells, as registered by
`copy_advice`: `(srcCol, srcRow)` must equal `(dstCol, dstRow)`. -/
structure CopyConstraint where
  srcCol : Nat
  srcRow : Nat
  dstCol : Nat
  dstRow : Nat
deriving DecidableEq, Repr

/-- A `constrain_instance(cell, instance_column, instRow)` record: the cell
at `(col, row)` must equal the public instance value at `instRow`. -/
structure InstanceBinding where
  col : Nat
  row : Nat
  instRow : Nat
deriving DecidableEq, Repr

/-- Ghost record of one `assign_row` call: its value arguments
`(a, b)`, the optional carry cell, the terminal value `z`, and the
`is_last` flag. -/
structure Call (F : Type) where
  ina : Value F
  inb : Value F
  carry : Option (AssignedCell F)
  z : Value F
  is_last : Bool
deriving DecidableEq, Repr

/-- The witness-table state built up during synthesis: the rows in
assignment order, the registered copy constraints, the registered
instance bindings, and the ghost trace of `assign_row` calls. -/
structure SynthState (F : Type) where
  rows : List (Row F)
  copies : List CopyConstraint
  instanceBindings : List InstanceBinding
  calls : List (Call F)
deriving DecidableEq, Repr

/-- The empty table, before synthesis assigns anything. -/
def initState (F : Type) : SynthState F := ⟨[], [], [], []⟩

/-- The backend `plonk::Error`, abstracted (its payload is irrelevant to
this circuit). -/
inductive Error where
  | backendError : Error
deriving DecidableEq, Repr

/-- `FibConfig`: the three advice column ids and the selector id produced
by the structural phase. -/
structure FibConfig where
  colA : Nat
  colB : Nat
  colC : Nat
  selector : Nat
deriving DecidableEq, Repr

/-- The part of halo2's `ConstraintSystem` this circuit touches: counters
for allocated advice/instance columns and selectors, the advice columns
with equality enabled, and the names of registered gates. -/
structure ConstraintSystem where
  numAdvice : Nat
  numInstance : Nat
  numSelectors : Nat
  equalityEnabled : List Nat
  gates : List String
deriving DecidableEq, Repr

/-- A fresh `ConstraintSystem`, before `configure` runs. -/
def emptyCS : ConstraintSystem := ⟨0, 0, 0, [], []⟩

/-- `cs.advice_column()`: allocate the next advice column id. -/
def ConstraintSystem.advice_column (cs : ConstraintSystem) :
    Nat × ConstraintSystem :=
  (cs.numAdvice, { cs with numAdvice := cs.numAdvice + 1 })

/-- `cs.selector()`: allocate the next selector id. -/
def ConstraintSystem.selector (cs : ConstraintSystem) :
    Nat × ConstraintSystem :=
  (cs.numSelectors, { cs with numSelectors := cs.numSelectors + 1 })

/-- `cs.enable_equality(col)`: permit copy constraints on `col`. -/
def ConstraintSystem.enable_equality (cs : ConstraintSystem) (col : Nat) :
    ConstraintSystem :=
  { cs with equalityEnabled := cs.equalityEnabled ++ [col] }

/-- `FibChip::configure`: enables equality on the three advice columns,
allocates the selector and registers the single "add" gate
`s * (a + b - c)` (its semantics is `Row.gateHolds`), returning the
`FibConfig`. -/
def FibChip.configure (cs : ConstraintSystem) (a0 a1 a2 : Nat) :
    FibConfig × ConstraintSystem :=
  let (sel, cs) := cs.selector
  let cs := cs.enable_equality a0
  let cs := cs.enable_equality a1
  let cs := cs.enable_equality a2
  let cs := { cs with gates := cs.gates ++ ["add"] }
  (⟨a0, a1, a2, sel⟩, cs)

/-- `FibCircuit::configure`: allocates the three advice columns and
delegates to `FibChip::configure`. -/
def FibCircuit.configure (cs : ConstraintSystem) :
    FibConfig × ConstraintSystem :=
  let (a0, cs) := cs.advice_column
  let (a1, cs) := cs.advice_column
  let (a2, cs) := cs.advice_column
  FibChip.configure cs a0 a1 a2

/-- `FibChip::assign_row`: opens one new one-row region (absolute row
`st.rows.length`), enables the selector there, assigns `a` to the `a`
column, assigns the `b` column either by copying `copy_cell` (registering
the copy constraint) or from the `b` argument, and assigns the `c` column
the sum of the `a` and `b` cell values unless `is_last`, in which case it
assigns `z`.  `fail` abstracts the backend's `Result`: when `true`, the
region allocation fails with a backend error and the state is unchanged. -/
def FibChip.assign_row {F : Type} [Add F] (cfg : FibConfig) (fail : Bool)
    (st : SynthState F) (a b : Value F)
    (copy_cell : Option (AssignedCell F)) (z : Value F) (is_last : Bool) :
    Except Error
      ((AssignedCell F × AssignedCell F × AssignedCell F) × SynthState F) :=
  if fail then .error .backendError else
  let r := st.rows.length
  let a_cell : AssignedCell F := ⟨cfg.colA, r, a⟩
  let bres : AssignedCell F × List CopyConstraint :=
    match copy_cell with
    | some cc => (⟨cfg.colB, r, cc.val⟩, st.copies ++ [⟨cc.col, cc.row, cfg.colB, r⟩])
    | none => (⟨cfg.colB, r, b⟩, st.copies)
  let b_cell := bres.1
  let c_cell : AssignedCell F :=
    ⟨cfg.colC, r, if is_last then z else a_cell.val + b_cell.val⟩
  .ok ((a_cell, b_cell, c_cell),
    { rows := st.rows ++ [⟨a_cell.val, b_cell.val, c_cell.val, true⟩]
      copies := bres.2
      instanceBindings := st.instanceBindings
      calls := st.calls ++ [⟨a, b, copy_cell, z, is_last⟩] })

/-- Outcome of `FibCircuit::synthesize`: the source function either
returns `Ok(())` (constructor `ok`), returns `Err` (constructor `err` —
never produced, since the source unwraps every fallible call and ends
with `Ok(())`), or panics (constructor `panicked`: a `usize` underflow
or an `.unwrap()` on a backend error).  Each constructor carries the
table state accumulated in the layouter up to that point. -/
inductive SynthOutcome (F : Type) where
  | ok : SynthState F → SynthOutcome F
  | err : Error → SynthState F → SynthOutcome F
  | panicked : SynthState F → SynthOutcome F
deriving DecidableEq, Repr

/-- `true` iff the outcome is a normal `Ok(())` return. -/
def SynthOutcome.isOk {F : Type} : SynthOutcome F → Bool
  | .ok _ => true
  | _ => false

/-- `true` iff the outcome is a returned `Err` (error propagated via the
function's `Result`). -/
def SynthOutcome.isErr {F : Type} : SynthOutcome F → Bool
  | .err _ _ => true
  | _ => false

/-- The table state the outcome carries. -/
def SynthOutcome.state {F : Type} : SynthOutcome F → SynthState F
  | .ok st => st
  | .err _ st => st
  | .panicked st => st

/-- The body of `(0..n).for_each` in `FibCircuit::synthesize`, as a
recursion on the number of remaining iterations `steps` (the current
index is `x`; the loop maintains `x + steps = n`).  Each iteration calls
`assign_row` with `is_last = (x == n - 1)` (source: `x == v - 2` with
`n = v - 1`) and `.unwrap()`s the result: a backend error (injected by
`fails x`) panics, with the table as built so far.  After each call the
recurrence state advances: `(fib0, fib1) ← (fib1, fib0 + fib1)` and the
new `c` cell becomes the next carry. -/
def synthLoop {F : Type} [Add F] (cfg : FibConfig) (fails : Nat → Bool)
    (z : Value F) (n : Nat) :
    Nat → Nat → Value F → Value F → Option (AssignedCell F) →
    SynthState F → SynthOutcome F
  | _, 0, _, _, _, st => .ok st
  | x, steps + 1, fib0, fib1, copy_cell, st =>
    match FibChip.assign_row cfg (fails x) st fib0 fib1 copy_cell z
      (x == n - 1) with
    | .error _ => .panicked st
    | .ok ((_, _, c_cell), st') =>
      synthLoop cfg fails z n (x + 1) steps fib1 (fib0 + fib1)
        (some c_cell) st'

/-- `FibCircuit<F>`: the circuit's private inputs.  `k` is a
`Value<usize>`. -/
structure FibCircuit (F : Type) where
  a : Value F
  b : Value F
  k : Value Nat
  z : Value F
deriving DecidableEq, Repr

/-- `Default for FibCircuit`: every `Value` defaults to `unknown`. -/
def FibCircuit.default (F : Type) : FibCircuit F :=
  ⟨.unknown, .unknown, .unknown, .unknown⟩

/-- `FibCircuit::without_witnesses`: returns `Self::default()`. -/
def FibCircuit.without_witnesses {F : Type} (_c : FibCircuit F) :
    FibCircuit F :=
  FibCircuit.default F

/-- `FibCircuit::synthesize`.  `self.k.map(…)` runs the loop only when `k`
is known; the loop `(0..v-1)` computes the `usize` bound `v - 1`, which
underflows (debug panic) when `v = 0`; otherwise it runs `v - 1`
iterations of `synthLoop` starting from `(fib0, fib1) = (a, b)` with no
carry cell.  The function's own return value is always `Ok(())`. -/
def FibCircuit.synthesize {F : Type} [Add F] (c : FibCircuit F)
    (cfg : FibConfig) (fails : Nat → Bool) : SynthOutcome F :=
  match c.k with
  | .unknown => .ok (initState F)
  | .known v =>
    match v with
    | 0 => .panicked (initState F)
    | w + 1 => synthLoop cfg fails c.z w 0 w c.a c.b none (initState F)

/-- The recurrence of the claims: `f 0 = a`, `f 1 = b`,
`f (n+2) = f n + f (n+1)`. -/
def fib {F : Type} [Add F] (a b : F) : Nat → F
  | 0 => a
  | 1 => b
  | n + 2 => fib a b n + fib a b (n + 1)

/-- The "add" gate at one row: when the selector is on, the assigned
values must satisfy `a + b - c = 0` (a row holding an `unknown` value
cannot satisfy a selected gate). -/
def Row.gateHolds {F : Type} [Add F] [Sub F] [Zero F] [DecidableEq F]
    (r : Row F) : Bool :=
  !r.selector || decide (r.a + r.b - r.c = Value.known 0)

/-- Value of the cell at `(col, row)` of the table, resolving `col`
against the configured advice columns. -/
def cellValue {F : Type} (cfg : FibConfig) (rows : List (Row F))
    (col row : Nat) : Value F :=
  match rows[row]? with
  | none => .unknown
  | some r =>
    if col = cfg.colA then r.a
    else if col = cfg.colB then r.b
    else if col = cfg.colC then r.c
    else .unknown

/-- One copy constraint holds: the two referenced cells carry equal
values. -/
def copyHolds {F : Type} [DecidableEq F] (cfg : FibConfig)
    (rows : List (Row F)) (cc : CopyConstraint) : Bool :=
  decide (cellValue cfg rows cc.srcCol cc.srcRow =
    cellValue cfg rows cc.dstCol cc.dstRow)

/-- The whole table verifies: every row satisfies the gate and every
registered copy constraint holds. -/
def tableOk {F : Type} [Add F] [Sub F] [Zero F] [DecidableEq F]
    (cfg : FibConfig) (st : SynthState F) : Bool :=
  st.rows.all Row.gateHolds && st.copies.all (copyHolds cfg st.rows)

/-- One instance binding holds against a public instance column `inst`. -/
def instanceBindingHolds {F : Type} [DecidableEq F] (cfg : FibConfig)
    (rows : List (Row F)) (inst : List F) (ib : InstanceBinding) : Bool :=
  decide (cellValue cfg rows ib.col ib.row =
    (match inst[ib.instRow]? with
     | some v => Value.known v
     | none => Value.unknown))

/-- Full satisfaction against public instance data `inst`: the table
verifies and every registered instance binding holds. -/
def satisfiedWith {F : Type} [Add F] [Sub F] [Zero F] [DecidableEq F]
    (cfg : FibConfig) (st : SynthState F) (inst : List F) : Bool :=
  tableOk cfg st && st.instanceBindings.all (instanceBindingHolds cfg st.rows inst)

/-- The config produced by running the structural phase on a fresh
constraint system: advice columns `0, 1, 2`, selector `0`. -/
def fibConfig : FibConfig := (FibCircuit.configure emptyCS).1

/-- The backend oracle that never fails (every `assign_region` succeeds). -/
def neverFails : Nat → Bool := fun _ => false

instance : Fact (Nat.Prime 101) := ⟨by norm_num⟩

/-! ## Closed forms for the table produced by a known-input synthesis run

For known inputs `(a, b, k = n+1, z)` with `n ≥ 1`, the loop runs `n`
iterations and produces the rows, copy constraints and call trace below. -/

/-- The row assigned at step `j` of an `n`-iteration run:
`(f j, f (j+1), f (j+2))`, except that the last step (`j = n-1`) writes
`z` into the `c` column. -/
def expectedRow {F : Type} [Add F] (a b z : F) (n j : Nat) : Row F :=
  ⟨.known (fib a b j), .known (fib a b (j + 1)),
   if j = n - 1 then .known z else .known (fib a b (j + 2)), true⟩

/-- The carry cell fed into step `j`: absent at step `0`, otherwise the
`c` cell of the previous row (column `2`, row `j - 1`, holding
`f (j+1)`). -/
def ccFor {F : Type} [Add F] (a b : F) : Nat → Option (AssignedCell F)
  | 0 => none
  | j + 1 => some ⟨2, j, .known (fib a b (j + 2))⟩

/-- The argument record of the `assign_row` call at step `j` of an
`n`-iteration run. -/
def callFor {F : Type} [Add F] (a b z : F) (n j : Nat) : Call F :=
  ⟨.known (fib a b j), .known (fib a b (j + 1)), ccFor a b j,
   .known z, j == n - 1⟩

/-- The rows assigned by steps `x, x+1, …, x+s-1` of an `n`-iteration
run. -/
def rowsFrom {F : Type} [Add F] (a b z : F) (n : Nat) :
    Nat → Nat → List (Row F)
  | _, 0 => []
  | x, s + 1 => expectedRow a b z n x :: rowsFrom a b z n (x + 1) s

/-- The copy constraints registered by steps `x, …, x+s-1`: step `j ≥ 1`
copies cell `(2, j-1)` into cell `(1, j)`; step `0` registers none. -/
def copiesFrom : Nat → Nat → List CopyConstraint
  | _, 0 => []
  | 0, s + 1 => copiesFrom 1 s
  | x + 1, s + 1 => ⟨2, x, 1, x + 1⟩ :: copiesFrom (x + 2) s

/-- The call records of steps `x, …, x+s-1` of an `n`-iteration run. -/
def callsFrom {F : Type} [Add F] (a b z : F) (n : Nat) :
    Nat → Nat → List (Call F)
  | _, 0 => []
  | x, s + 1 => callFor a b z n x :: callsFrom a b z n (x + 1) s

/-- The complete table of a known-input run of `n` iterations. -/
def expectedState {F : Type} [Add F] (a b z : F) (n : Nat) : SynthState F :=
  ⟨rowsFrom a b z n 0 n, copiesFrom 0 n, [], callsFrom a b z n 0 n⟩

/-- The copy constraints registered by one step with carry `ccFor a b j`:
none at step `0`, one at step `j + 1`. -/
def ccCopies : Nat → List CopyConstraint
  | 0 => []
  | j + 1 => [⟨2, j, 1, j + 1⟩]

theorem fibConfig_eq : fibConfig = ⟨0, 1, 2, 0⟩ := rfl

theorem fib_step {F : Type} [Add F] (a b : F) (j : Nat) :
    fib a b (j + 2) = fib a b j + fib a b (j + 1) := by
  rw [fib]

theorem Value.known_add {F : Type} [Add F] (x y : F) :
    (Value.known x + Value.known y : Value F) = Value.known (x + y) := rfl

theorem Value.known_sub {F : Type} [Sub F] (x y : F) :
    (Value.known x - Value.known y : Value F) = Value.known (x - y) := rfl

theorem known_add_fib {F : Type} [Add F] (a b : F) (x : Nat) :
    (Value.known (fib a b x) + Value.known (fib a b (x + 1)) : Value F)
      = Value.known (fib a b (x + 2)) := by
  rw [fib_step]; rfl

theorem copiesFrom_cons (x s : Nat) :
    copiesFrom x (s + 1) = ccCopies x ++ copiesFrom (x + 1) s := by
  cases x <;> simp [copiesFrom, ccCopies]

theorem synthLoop_succ_ok {F : Type} [Add F] {cfg : FibConfig}
    {fails : Nat → Bool} {z : Value F} {n x s : Nat} {f0 f1 : Value F}
    {cc : Option (AssignedCell F)} {st st' : SynthState F}
    {ac bc ccc : AssignedCell F} {islast : Bool}
    (hb : (x == n - 1) = islast)
    (h : FibChip.assign_row cfg (fails x) st f0 f1 cc z islast
      = .ok ((ac, bc, ccc), st')) :
    synthLoop cfg fails z n x (s + 1) f0 f1 cc st
      = synthLoop cfg fails z n (x + 1) s f1 (f0 + f1) (some ccc) st' := by
  subst hb
  simp only [synthLoop, h]

theorem synthLoop_succ_panic {F : Type} [Add F] {cfg : FibConfig}
    {fails : Nat → Bool} {z : Value F} {n x s : Nat} {f0 f1 : Value F}
    {cc : Option (AssignedCell F)} {st : SynthState F} {e : Error}
    {islast : Bool} (hb : (x == n - 1) = islast)
    (h : FibChip.assign_row cfg (fails x) st f0 f1 cc z islast = .error e) :
    synthLoop cfg fails z n x (s + 1) f0 f1 cc st = .panicked st := by
  subst hb
  simp only [synthLoop, h]

theorem assign_row_ccFor {F : Type} [Add F] (a b z : F) (x : Nat)
    (st : SynthState F) (islast : Bool) (hlen : st.rows.length = x) :
    FibChip.assign_row fibConfig false st (.known (fib a b x))
      (.known (fib a b (x + 1))) (ccFor a b x) (.known z) islast
    = .ok ((⟨0, x, .known (fib a b x)⟩, ⟨1, x, .known (fib a b (x + 1))⟩,
        ⟨2, x, if islast then .known z
          else .known (fib a b x) + .known (fib a b (x + 1))⟩),
      ⟨st.rows ++ [⟨.known (fib a b x), .known (fib a b (x + 1)),
          if islast then .known z
          else .known (fib a b x) + .known (fib a b (x + 1)), true⟩],
        st.copies ++ ccCopies x,
        st.instanceBindings,
        st.calls ++ [⟨.known (fib a b x), .known (fib a b (x + 1)),
          ccFor a b x, .known z, islast⟩]⟩) := by
  cases x with
  | zero => simp [FibChip.assign_row, fibConfig_eq, ccFor, ccCopies, hlen]
  | succ j => simp [FibChip.assign_row, fibConfig_eq, ccFor, ccCopies, hlen]

theorem synthLoop_spec {F : Type} [Add F] (a b z : F) (n : Nat) :
    ∀ steps x (st : SynthState F), x + steps = n → st.rows.length = x →
      synthLoop fibConfig neverFails (.known z) n x steps
        (.known (fib a b x)) (.known (fib a b (x + 1))) (ccFor a b x) st
      = .ok ⟨st.rows ++ rowsFrom a b z n x steps,
             st.copies ++ copiesFrom x steps,
             st.instanceBindings,
             st.calls ++ callsFrom a b z n x steps⟩ := by
  intro steps
  induction steps with
  | zero =>
    intro x st hxn hlen
    simp [synthLoop, rowsFrom, copiesFrom, callsFrom]
  | succ s ih =>
    intro x st hxn hlen
    cases s with
    | zero =>
      -- terminal step: x = n - 1, the c cell receives z
      have hx : x = n - 1 := by omega
      have hbeq : (x == n - 1) = true := by simp [hx]
      have hstep : FibChip.assign_row fibConfig (neverFails x) st
          (.known (fib a b x)) (.known (fib a b (x + 1))) (ccFor a b x)
          (.known z) true
          = .ok ((⟨0, x, .known (fib a b x)⟩,
              ⟨1, x, .known (fib a b (x + 1))⟩, ⟨2, x, .known z⟩),
            ⟨st.rows ++ [⟨.known (fib a b x), .known (fib a b (x + 1)),
                .known z, true⟩],
              st.copies ++ ccCopies x,
              st.instanceBindings,
              st.calls ++ [⟨.known (fib a b x), .known (fib a b (x + 1)),
                ccFor a b x, .known z, true⟩]⟩) := by
        have h0 := assign_row_ccFor a b z x st true hlen
        simpa using h0
      rw [synthLoop_succ_ok hbeq hstep]
      simp [synthLoop, rowsFrom, callsFrom, copiesFrom_cons, copiesFrom,
        expectedRow, callFor, hx, hbeq]
    | succ s' =>
      -- non-terminal step: x < n - 1, the c cell receives the sum
      have hxne : x ≠ n - 1 := by omega
      have hbeq : (x == n - 1) = false := by simpa using hxne
      have hstep : FibChip.assign_row fibConfig (neverFails x) st
          (.known (fib a b x)) (.known (fib a b (x + 1))) (ccFor a b x)
          (.known z) false
          = .ok ((⟨0, x, .known (fib a b x)⟩,
              ⟨1, x, .known (fib a b (x + 1))⟩,
              ⟨2, x, .known (fib a b (x + 2))⟩),
            ⟨st.rows ++ [⟨.known (fib a b x), .known (fib a b (x + 1)),
                .known (fib a b (x + 2)), true⟩],
              st.copies ++ ccCopies x,
              st.instanceBindings,
              st.calls ++ [⟨.known (fib a b x), .known (fib a b (x + 1)),
                ccFor a b x, .known z, false⟩]⟩) := by
        have h0 := assign_row_ccFor a b z x st false hlen
        simpa [known_add_fib] using h0
      rw [synthLoop_succ_ok hbeq hstep, known_add_fib]
      have ih' := ih (x + 1)
        ⟨st.rows ++ [⟨.known (fib a b x), .known (fib a b (x + 1)),
            .known (fib a b (x + 2)), true⟩],
          st.copies ++ ccCopies x, st.instanceBindings,
          st.calls ++ [⟨.known (fib a b x), .known (fib a b (x + 1)),
            ccFor a b x, .known z, false⟩]⟩
        (by omega) (by simp [hlen])
      rw [show x + 1 + 1 = x + 2 from rfl] at ih'
      rw [show ccFor a b (x + 1)
          = some ⟨2, x, Value.known (fib a b (x + 2))⟩ from rfl] at ih'
      rw [ih']
      simp [rowsFrom, callsFrom, copiesFrom_cons, expectedRow, callFor,
        hxne, hbeq]

/-- A known-input run with `k = w + 1 ≥ 1` produces exactly the expected
table. -/
theorem synthesize_spec {F : Type} [Add F] (a b z : F) (w : Nat) :
    FibCircuit.synthesize ⟨.known a, .known b, .known (w + 1), .known z⟩
      fibConfig neverFails = .ok (expectedState a b z w) := by
  have h := synthLoop_spec a b z w w 0 (initState F) (by omega) rfl
  simpa [FibCircuit.synthesize, expectedState, initState, fib, ccFor] using h

theorem rowsFrom_length {F : Type} [Add F] (a b z : F) (n : Nat) :
    ∀ s x, (rowsFrom a b z n x s).length = s := by
  intro s
  induction s with
  | zero => intro x; rfl
  | succ s ih => intro x; simp [rowsFrom, ih]

theorem rowsFrom_getElem {F : Type} [Add F] (a b z : F) (n : Nat) :
    ∀ s x i, (rowsFrom a b z n x s)[i]?
      = if i < s then some (expectedRow a b z n (x + i)) else none := by
  intro s
  induction s with
  | zero => intro x i; simp [rowsFrom]
  | succ s ih =>
    intro x i
    cases i with
    | zero => simp [rowsFrom]
    | succ i =>
      rw [show x + (i + 1) = x + 1 + i by omega]
      simp [rowsFrom, ih]

theorem callsFrom_length {F : Type} [Add F] (a b z : F) (n : Nat) :
    ∀ s x, (callsFrom a b z n x s).length = s := by
  intro s
  induction s with
  | zero => intro x; rfl
  | succ s ih => intro x; simp [callsFrom, ih]

theorem callsFrom_getElem {F : Type} [Add F] (a b z : F) (n : Nat) :
    ∀ s x i, (callsFrom a b z n x s)[i]?
      = if i < s then some (callFor a b z n (x + i)) else none := by
  intro s
  induction s with
  | zero => intro x i; simp [callsFrom]
  | succ s ih =>
    intro x i
    cases i with
    | zero => simp [callsFrom]
    | succ i =>
      rw [show x + (i + 1) = x + 1 + i by omega]
      simp [callsFrom, ih]

theorem copiesFrom_mem :
    ∀ s x (cc : CopyConstraint), cc ∈ copiesFrom x s
      ↔ ∃ j, cc = ⟨2, j, 1, j + 1⟩ ∧ x ≤ j + 1 ∧ j + 1 < x + s := by
  intro s
  induction s with
  | zero =>
    intro x cc
    simp only [copiesFrom, List.not_mem_nil, false_iff, not_exists]
    rintro j ⟨_, _, h3⟩
    omega
  | succ s ih =>
    intro x cc
    cases x with
    | zero =>
      rw [show copiesFrom 0 (s + 1) = copiesFrom 1 s from rfl, ih 1]
      constructor
      · rintro ⟨j, rfl, h1, h2⟩
        exact ⟨j, rfl, by omega, by omega⟩
      · rintro ⟨j, rfl, h1, h2⟩
        exact ⟨j, rfl, by omega, by omega⟩
    | succ y =>
      rw [show copiesFrom (y + 1) (s + 1)
        = ⟨2, y, 1, y + 1⟩ :: copiesFrom (y + 2) s from rfl]
      simp only [List.mem_cons, ih (y + 2)]
      constructor
      · rintro (rfl | ⟨j, rfl, h1, h2⟩)
        · exact ⟨y, rfl, by omega, by omega⟩
        · exact ⟨j, rfl, by omega, by omega⟩
      · rintro ⟨j, rfl, h1, h2⟩
        rcases Nat.lt_or_ge y j with h | h
        · exact Or.inr ⟨j, rfl, by omega, by omega⟩
        · have hjy : j = y := by omega
          subst hjy
          exact Or.inl rfl

/-- Every row of a complete, honest run satisfies the gate. -/
theorem gate_expectedRow {F : Type} [Field F] [DecidableEq F] (a b z : F)
    (n i : Nat) (hn : 1 ≤ n) (hi : i < n) (hz : z = fib a b (n + 1)) :
    Row.gateHolds (expectedRow a b z n i) = true := by
  by_cases h : i = n - 1
  · subst h
    simp only [expectedRow, Row.gateHolds, if_pos rfl, Value.known_add,
      Value.known_sub, Bool.not_true, Bool.false_or, decide_eq_true_eq,
      Value.known.injEq, hz]
    rw [show n + 1 = (n - 1) + 2 by omega, fib_step]
    simp [Value.known_sub, sub_self]
  · simp only [expectedRow, Row.gateHolds, if_neg h, Value.known_add,
      Value.known_sub, Bool.not_true, Bool.false_or, decide_eq_true_eq,
      Value.known.injEq]
    rw [fib_step]
    exact sub_self (fib a b i + fib a b (i + 1))

/-- Every copy constraint of a complete run holds: the `c` cell of row `j`
and the `b` cell of row `j + 1` carry the same value. -/
theorem copy_expectedRows {F : Type} [Field F] [DecidableEq F] (a b z : F)
    (n j : Nat) (hj : j + 1 < n) :
    copyHolds fibConfig (rowsFrom a b z n 0 n) ⟨2, j, 1, j + 1⟩ = true := by
  have hj0 : j < n := by omega
  have hjn : ¬ j = n - 1 := by omega
  simp [copyHolds, cellValue, fibConfig_eq, rowsFrom_getElem, hj, hj0,
    expectedRow, hjn, show j + 1 + 1 = j + 2 from rfl]

/-- A successful `assign_row` call leaves the instance bindings unchanged
(the source registers none; `constrain_instance` is commented out). -/
theorem assign_row_ok_bindings {F : Type} [Add F] {cfg : FibConfig}
    {fail : Bool} {st : SynthState F} {a b : Value F}
    {copy_cell : Option (AssignedCell F)} {z : Value F} {is_last : Bool}
    {cells : AssignedCell F × AssignedCell F × AssignedCell F}
    {st' : SynthState F}
    (h : FibChip.assign_row cfg fail st a b copy_cell z is_last
      = .ok (cells, st')) :
    st'.instanceBindings = st.instanceBindings := by
  cases fail with
  | true => exact absurd h (by simp [FibChip.assign_row])
  | false =>
    cases copy_cell with
    | none =>
      simp only [FibChip.assign_row, Bool.false_eq_true, if_false,
        ite_false, Except.ok.injEq] at h
      injection h with h1 h2
      subst h2
      rfl
    | some cc =>
      simp only [FibChip.assign_row, Bool.false_eq_true, if_false,
        ite_false, Except.ok.injEq] at h
      injection h with h1 h2
      subst h2
      rfl

/-- `synthLoop` never produces a returned-`Err` outcome: every backend
error is `.unwrap()`ed into a panic. -/
theorem synthLoop_not_err {F : Type} [Add F] (cfg : FibConfig)
    (fails : Nat → Bool) (z : Value F) (n : Nat) :
    ∀ steps x (f0 f1 : Value F) (cc : Option (AssignedCell F))
      (st : SynthState F),
      (synthLoop cfg fails z n x steps f0 f1 cc st).isErr = false := by
  intro steps
  induction steps with
  | zero => intro x f0 f1 cc st; rfl
  | succ s ih =>
    intro x f0 f1 cc st
    cases h : FibChip.assign_row cfg (fails x) st f0 f1 cc z
        (x == n - 1) with
    | error e => rw [synthLoop_succ_panic rfl h]; rfl
    | ok val =>
      obtain ⟨⟨ac, bc, ccc⟩, st'⟩ := val
      rw [synthLoop_succ_ok rfl h]
      exact ih (x + 1) f1 (f0 + f1) (some ccc) st'

/-- `synthLoop` leaves the instance bindings of the state unchanged. -/
theorem synthLoop_bindings {F : Type} [Add F] (cfg : FibConfig)
    (fails : Nat → Bool) (z : Value F) (n : Nat) :
    ∀ steps x (f0 f1 : Value F) (cc : Option (AssignedCell F))
      (st : SynthState F),
      (synthLoop cfg fails z n x steps f0 f1 cc st).state.instanceBindings
        = st.instanceBindings := by
  intro steps
  induction steps with
  | zero => intro x f0 f1 cc st; rfl
  | succ s ih =>
    intro x f0 f1 cc st
    cases h : FibChip.assign_row cfg (fails x) st f0 f1 cc z
        (x == n - 1) with
    | error e => rw [synthLoop_succ_panic rfl h]; rfl
    | ok val =>
      obtain ⟨⟨ac, bc, ccc⟩, st'⟩ := val
      rw [synthLoop_succ_ok rfl h, ih (x + 1) f1 (f0 + f1) (some ccc) st']
      exact assign_row_ok_bindings h

/-- `FibCircuit.synthesize` never returns an `Err` result. -/
theorem synthesize_not_err {F : Type} [Add F] (c : FibCircuit F)
    (cfg : FibConfig) (fails : Nat → Bool) :
    (FibCircuit.synthesize c cfg fails).isErr = false := by
  obtain ⟨ca, cb, ck, cz⟩ := c
  cases ck with
  | unknown => rfl
  | known v =>
    cases v with
    | zero => rfl
    | succ w =>
      exact synthLoop_not_err cfg fails cz w w 0 ca cb none (initState F)

/-- `FibCircuit.synthesize` registers no instance binding, whatever its
inputs, outcome and backend. -/
theorem synthesize_bindings {F : Type} [Add F] (c : FibCircuit F)
    (cfg : FibConfig) (fails : Nat → Bool) :
    (FibCircuit.synthesize c cfg fails).state.instanceBindings = [] := by
  obtain ⟨ca, cb, ck, cz⟩ := c
  cases ck with
  | unknown => rfl
  | known v =>
    cases v with
    | zero => rfl
    | succ w =>
      exact synthLoop_bindings cfg fails cz w w 0 ca cb none (initState F)

/-! ## The claims -/

/-- C1: Completeness — for every input `(a, b, k, z)` with `k ≥ 2` such
that `z` equals the recurrence value at index `k` (`f 0 = a`, `f 1 = b`,
`f n = f (n-1) + f (n-2)`), the witness table produced by
`FibCircuit.synthesize` satisfies every instance of the "add" gate and
every copy constraint it registered. -/
theorem C1_completeness {F : Type} [Field F] [DecidableEq F] (a b z : F)
    (k : Nat) (h2 : 2 ≤ k) (hz : z = fib a b k) :
    ∃ st, FibCircuit.synthesize ⟨.known a, .known b, .known k, .known z⟩
        fibConfig neverFails = .ok st ∧ tableOk fibConfig st = true := by
  obtain ⟨w, rfl⟩ : ∃ w, k = w + 1 := ⟨k - 1, by omega⟩
  have hw : 1 ≤ w := by omega
  refine ⟨expectedState a b z w, synthesize_spec a b z w, ?_⟩
  simp only [tableOk, expectedState, Bool.and_eq_true, List.all_eq_true]
  constructor
  · intro r hr
    rw [List.mem_iff_getElem?] at hr
    obtain ⟨i, hi⟩ := hr
    rw [rowsFrom_getElem] at hi
    by_cases hlt : i < w
    · rw [if_pos hlt] at hi
      injection hi with h
      subst h
      simpa using gate_expectedRow a b z w i hw hlt hz
    · rw [if_neg hlt] at hi
      exact absurd hi (by simp)
  · intro cc hcc
    rw [copiesFrom_mem] at hcc
    obtain ⟨j, rfl, hj1, hj2⟩ := hcc
    exact copy_expectedRows a b z w j (by omega)

/-- Witness for C1: over `ZMod 101` with `(a, b, k, z) = (1, 1, 3, 3)`,
where `3 = fib 1 1 3`. -/
theorem C1_completeness_witness :
    ∃ st, FibCircuit.synthesize
        (⟨.known 1, .known 1, .known 3, .known 3⟩ : FibCircuit (ZMod 101))
        fibConfig neverFails = .ok st ∧ tableOk fibConfig st = true :=
  C1_completeness 1 1 3 3 (by norm_num) (by decide)

/-- C2: Soundness — for every input `(a, b, k, z)` with `k ≥ 2` such that
`z` differs from the recurrence value at index `k`, the witness table
produced by `FibCircuit.synthesize` violates the "add" gate at the
terminal row (row `k - 2`, whose `c` cell holds `z` instead of `a + b`),
so verification fails. -/
theorem C2_soundness {F : Type} [Field F] [DecidableEq F] (a b z : F)
    (k : Nat) (h2 : 2 ≤ k) (hz : z ≠ fib a b k) :
    ∃ st, FibCircuit.synthesize ⟨.known a, .known b, .known k, .known z⟩
        fibConfig neverFails = .ok st ∧
      ∃ r, st.rows[k - 2]? = some r ∧ r.selector = true ∧
        Row.gateHolds r = false ∧ tableOk fibConfig st = false := by
  obtain ⟨w, rfl⟩ : ∃ w, k = w + 1 := ⟨k - 1, by omega⟩
  have hw : 1 ≤ w := by omega
  refine ⟨expectedState a b z w, synthesize_spec a b z w, ?_⟩
  have hterm : (rowsFrom a b z w 0 w)[w - 1]?
      = some (expectedRow a b z w (w - 1)) := by
    rw [rowsFrom_getElem, if_pos (by omega)]
    simp
  have hz' : z ≠ fib a b (w - 1) + fib a b (w - 1 + 1) := by
    rw [show w + 1 = w - 1 + 2 by omega, fib_step] at hz
    exact hz
  have hgate : Row.gateHolds (expectedRow a b z w (w - 1)) = false := by
    have hco : (if w - 1 = w - 1 then Value.known z
        else Value.known (fib a b (w - 1 + 2))) = Value.known z :=
      if_pos rfl
    simp only [expectedRow, Row.gateHolds, hco, ite_true,
      eq_self_iff_true, Value.known_add, Value.known_sub, Bool.not_true,
      Bool.false_or, decide_eq_false_iff_not, Value.known.injEq]
    intro hEq
    rw [sub_eq_zero] at hEq
    exact hz' hEq.symm
  have hmem : expectedRow a b z w (w - 1) ∈ rowsFrom a b z w 0 w :=
    List.mem_iff_getElem?.mpr ⟨w - 1, hterm⟩
  refine ⟨expectedRow a b z w (w - 1), ?_, rfl, hgate, ?_⟩
  · simpa [expectedState, show w + 1 - 2 = w - 1 by omega] using hterm
  · rw [Bool.eq_false_iff]
    intro htrue
    simp only [tableOk, expectedState, Bool.and_eq_true,
      List.all_eq_true] at htrue
    have hcontra := htrue.1 _ hmem
    rw [hgate] at hcontra
    cases hcontra

/-- Witness for C2: over `ZMod 101` with `(a, b, k, z) = (1, 1, 2, 5)`,
where `fib 1 1 2 = 2 ≠ 5`. -/
theorem C2_soundness_witness :
    ∃ st, FibCircuit.synthesize
        (⟨.known 1, .known 1, .known 2, .known 5⟩ : FibCircuit (ZMod 101))
        fibConfig neverFails = .ok st ∧
      ∃ r, st.rows[2 - 2]? = some r ∧ r.selector = true ∧
        Row.gateHolds r = false ∧ tableOk fibConfig st = false :=
  C2_soundness 1 1 5 2 (by norm_num) (by decide)

/-- C3 counterexample: with `a = 1, b = 2, k = 9, z = 55` (over
`ZMod 101`) synthesis completes, but the table does NOT satisfy every
gate: the recurrence value at index 9 is `89`, and the terminal gate
fails, so verification fails rather than succeeds. -/
theorem C3_counterexample :
    (FibCircuit.synthesize (⟨.known 1, .known 2, .known 9, .known 55⟩ :
        FibCircuit (ZMod 101)) fibConfig neverFails).isOk = true ∧
    tableOk fibConfig (FibCircuit.synthesize
        (⟨.known 1, .known 2, .known 9, .known 55⟩ :
        FibCircuit (ZMod 101)) fibConfig neverFails).state = false := by
  decide

/-- C3 amended: with `a = 1, b = 2, k = 9` the recurrence value at index
9 is `89` (the value the source's `test_complete` uses), and with
`z = 89` the synthesized witness satisfies every gate and copy
constraint, so verification succeeds. -/
theorem C3_scenario :
    (89 : ZMod 101) = fib 1 2 9 ∧
    FibCircuit.synthesize (⟨.known 1, .known 2, .known 9, .known 89⟩ :
        FibCircuit (ZMod 101)) fibConfig neverFails
      = .ok (expectedState 1 2 89 8) ∧
    tableOk fibConfig (expectedState (1 : ZMod 101) 2 89 8) = true := by
  refine ⟨by decide, synthesize_spec 1 2 89 8, by decide⟩

/-- C4: Chaining invariant — in the witness table of a known-input run,
every row after the first has its `b` value equal to the `c` value of the
immediately preceding row, and the copy constraint "column `c` of the
previous row = column `b` of this row" is registered. -/
theorem C4_chaining {F : Type} [Field F] [DecidableEq F] (a b z : F)
    (k : Nat) (hk : 1 ≤ k) :
    ∃ st, FibCircuit.synthesize ⟨.known a, .known b, .known k, .known z⟩
        fibConfig neverFails = .ok st ∧
      ∀ j, 0 < j → j < st.rows.length →
        ∃ rj rp, st.rows[j]? = some rj ∧ st.rows[j - 1]? = some rp ∧
          rj.b = rp.c ∧
          (⟨fibConfig.colC, j - 1, fibConfig.colB, j⟩ : CopyConstraint)
            ∈ st.copies := by
  obtain ⟨w, rfl⟩ : ∃ w, k = w + 1 := ⟨k - 1, by omega⟩
  refine ⟨expectedState a b z w, synthesize_spec a b z w, ?_⟩
  intro j hj0 hjlen
  have hlen : (expectedState a b z w).rows.length = w := by
    simp [expectedState, rowsFrom_length]
  rw [hlen] at hjlen
  have h1 : (expectedState a b z w).rows[j]?
      = some (expectedRow a b z w j) := by
    simp [expectedState, rowsFrom_getElem, hjlen]
  have h2 : (expectedState a b z w).rows[j - 1]?
      = some (expectedRow a b z w (j - 1)) := by
    simp [expectedState, rowsFrom_getElem, show j - 1 < w by omega]
  refine ⟨_, _, h1, h2, ?_, ?_⟩
  · simp [expectedRow, show ¬ (j - 1 = w - 1) by omega,
      show j - 1 + 2 = j + 1 by omega]
  · show _ ∈ (expectedState a b z w).copies
    simp only [expectedState]
    rw [copiesFrom_mem]
    exact ⟨j - 1, by simp [fibConfig_eq, show j - 1 + 1 = j by omega],
      by omega, by omega⟩

/-- Witness for C4: over `ZMod 101` with `(a, b, k, z) = (1, 1, 3, 2)`. -/
theorem C4_chaining_witness :
    ∃ st, FibCircuit.synthesize
        (⟨.known 1, .known 1, .known 3, .known 2⟩ : FibCircuit (ZMod 101))
        fibConfig neverFails = .ok st ∧
      ∀ j, 0 < j → j < st.rows.length →
        ∃ rj rp, st.rows[j]? = some rj ∧ st.rows[j - 1]? = some rp ∧
          rj.b = rp.c ∧
          (⟨fibConfig.colC, j - 1, fibConfig.colB, j⟩ : CopyConstraint)
            ∈ st.copies :=
  C4_chaining 1 1 2 3 (by norm_num)

/-- C5: Recurrence driver steps — for `k ≥ 2` synthesis makes exactly
`k - 1` `assign_row` calls, at step indices `x = 0, …, k-2`; step `x`
receives inputs `(fib x, fib (x+1))` and the terminal value `z`; its
carry cell is absent exactly at `x = 0` and otherwise is the `c` cell of
the row produced at step `x - 1`; its terminal flag is set exactly when
`x = k - 2`; and consecutive calls advance the driver state by
`(f0, f1) ← (f1, f0 + f1)`. -/
theorem C5_driver_steps {F : Type} [Field F] [DecidableEq F] (a b z : F)
    (k : Nat) (h2 : 2 ≤ k) :
    ∃ st, FibCircuit.synthesize ⟨.known a, .known b, .known k, .known z⟩
        fibConfig neverFails = .ok st ∧
      st.calls.length = k - 1 ∧
      ∀ x, x < k - 1 →
        ∃ call, st.calls[x]? = some call ∧
          call.ina = .known (fib a b x) ∧
          call.inb = .known (fib a b (x + 1)) ∧
          call.z = .known z ∧
          call.is_last = (x == k - 2) ∧
          (x = 0 → call.carry = none) ∧
          (0 < x → ∃ rp, st.rows[x - 1]? = some rp ∧
            call.carry = some ⟨fibConfig.colC, x - 1, rp.c⟩) ∧
          (x + 1 < k - 1 → ∃ next, st.calls[x + 1]? = some next ∧
            next.ina = call.inb ∧ next.inb = call.ina + call.inb) := by
  obtain ⟨w, rfl⟩ : ∃ w, k = w + 1 := ⟨k - 1, by omega⟩
  refine ⟨expectedState a b z w, synthesize_spec a b z w, ?_, ?_⟩
  · simp [expectedState, callsFrom_length]
  intro x hx
  have hx' : x < w := by omega
  have hcall : (expectedState a b z w).calls[x]?
      = some (callFor a b z w x) := by
    simp [expectedState, callsFrom_getElem, hx']
  refine ⟨callFor a b z w x, hcall, rfl, rfl, rfl, ?_, ?_, ?_, ?_⟩
  · simp [callFor, show w + 1 - 2 = w - 1 by omega]
  · intro hx0
    subst hx0
    rfl
  · intro hx0
    obtain ⟨j, rfl⟩ : ∃ j, x = j + 1 := ⟨x - 1, by omega⟩
    refine ⟨expectedRow a b z w j, ?_, ?_⟩
    · simp [expectedState, rowsFrom_getElem, show j < w by omega]
    · simp [callFor, ccFor, fibConfig_eq, expectedRow,
        show ¬ j = w - 1 by omega]
  · intro hnext
    refine ⟨callFor a b z w (x + 1), ?_, rfl, ?_⟩
    · simp [expectedState, callsFrom_getElem, show x + 1 < w by omega]
    · simp [callFor, known_add_fib, show x + 1 + 1 = x + 2 from rfl]

/-- Witness for C5: over `ZMod 101` with `(a, b, k, z) = (1, 1, 4, 3)`. -/
theorem C5_driver_steps_witness :
    ∃ st, FibCircuit.synthesize
        (⟨.known 1, .known 1, .known 4, .known 3⟩ : FibCircuit (ZMod 101))
        fibConfig neverFails = .ok st ∧
      st.calls.length = 4 - 1 ∧
      ∀ x, x < 4 - 1 →
        ∃ call, st.calls[x]? = some call ∧
          call.ina = .known (fib 1 1 x) ∧
          call.inb = .known (fib 1 1 (x + 1)) ∧
          call.z = .known 3 ∧
          call.is_last = (x == 4 - 2) ∧
          (x = 0 → call.carry = none) ∧
          (0 < x → ∃ rp, st.rows[x - 1]? = some rp ∧
            call.carry = some ⟨fibConfig.colC, x - 1, rp.c⟩) ∧
          (x + 1 < 4 - 1 → ∃ next, st.calls[x + 1]? = some next ∧
            next.ina = call.inb ∧ next.inb = call.ina + call.inb) :=
  C5_driver_steps 1 1 3 4 (by norm_num)

/-- C6 counterexample: at `k = 0` (over `ZMod 101`) synthesis does not
complete normally — the `usize` bound `k - 1` underflows and the run
panics — so the claim fails for `k = 0`. -/
theorem C6_counterexample :
    (FibCircuit.synthesize (⟨.known 1, .known 1, .known 0, .known 1⟩ :
        FibCircuit (ZMod 101)) fibConfig neverFails).isOk = false ∧
    FibCircuit.synthesize (⟨.known 1, .known 1, .known 0, .known 1⟩ :
        FibCircuit (ZMod 101)) fibConfig neverFails
      = .panicked (initState (ZMod 101)) := by
  decide

/-- C6 amended: for `k = 1` (any inputs, any backend) the loop runs zero
iterations and synthesis completes normally with the empty table; for
`k = 0` the `usize` bound `k - 1` underflows and synthesis panics (debug
semantics) with the table still empty, instead of completing normally. -/
theorem C6_edge_cases {F : Type} [Field F] (a b z : F)
    (fails : Nat → Bool) :
    FibCircuit.synthesize ⟨.known a, .known b, .known 1, .known z⟩
        fibConfig fails = .ok (initState F) ∧
    FibCircuit.synthesize ⟨.known a, .known b, .known 0, .known z⟩
        fibConfig fails = .panicked (initState F) :=
  ⟨rfl, rfl⟩

/-- C7: Row assignment contract — a (non-failing) `assign_row` call
appends exactly one row whose selector is enabled; wire `a` receives the
first input; wire `b` receives a copy of the carry cell when one is
supplied, registering the copy constraint, and the second input
otherwise; wire `c` receives the sum of the assigned `a` and `b` cell
values unless the terminal flag is set, in which case it receives `z`. -/
theorem C7_assign_row_contract {F : Type} [Field F] (cfg : FibConfig)
    (st : SynthState F) (a b : Value F)
    (copy_cell : Option (AssignedCell F)) (z : Value F) (is_last : Bool) :
    ∃ a_cell b_cell c_cell st',
      FibChip.assign_row cfg false st a b copy_cell z is_last
        = .ok ((a_cell, b_cell, c_cell), st') ∧
      st'.rows = st.rows
        ++ [⟨a_cell.val, b_cell.val, c_cell.val, true⟩] ∧
      a_cell = ⟨cfg.colA, st.rows.length, a⟩ ∧
      b_cell = ⟨cfg.colB, st.rows.length,
        match copy_cell with
        | some cc => cc.val
        | none => b⟩ ∧
      st'.copies = st.copies ++
        (match copy_cell with
         | some cc => [⟨cc.col, cc.row, cfg.colB, st.rows.length⟩]
         | none => []) ∧
      c_cell = ⟨cfg.colC, st.rows.length,
        if is_last then z else a_cell.val + b_cell.val⟩ := by
  cases copy_cell with
  | none =>
    refine ⟨_, _, _, _, rfl, rfl, rfl, rfl, ?_, rfl⟩
    simp [FibChip.assign_row]
  | some cc => exact ⟨_, _, _, _, rfl, rfl, rfl, rfl, rfl, rfl⟩

/-- C8 counterexample: synthesizing the `without_witnesses` circuit (all
inputs unknown) allocates zero rows, while synthesizing the same circuit
with known inputs and `k = 2` allocates one row — the structural pass
does NOT perform the same sequence of row allocations. -/
theorem C8_counterexample :
    (FibCircuit.synthesize (FibCircuit.without_witnesses
        (⟨.known 1, .known 1, .known 2, .known 2⟩ : FibCircuit (ZMod 101)))
        fibConfig neverFails).state.rows.length = 0 ∧
    (FibCircuit.synthesize (⟨.known 1, .known 1, .known 2, .known 2⟩ :
        FibCircuit (ZMod 101)) fibConfig neverFails).state.rows.length
      = 1 := by
  decide

/-- C8 amended: `without_witnesses` yields the all-unknown circuit, whose
`k` is `unknown`; because `synthesize` maps over `k`, the structural pass
performs zero row allocations, zero selector enablings and zero copy
constraints (it returns `Ok` with the empty table), while known-input
synthesis with the same `k ≥ 2` allocates `k - 1` rows — the topology
agrees only when the known-`k` run also performs zero iterations. -/
theorem C8_structural_pass {F : Type} [Field F] [DecidableEq F]
    (c : FibCircuit F) (fails : Nat → Bool) (a b z : F) (k : Nat)
    (h2 : 2 ≤ k) :
    FibCircuit.synthesize (FibCircuit.without_witnesses c) fibConfig fails
      = .ok (initState F) ∧
    (FibCircuit.synthesize ⟨.known a, .known b, .known k, .known z⟩
        fibConfig neverFails).state.rows.length = k - 1 := by
  refine ⟨rfl, ?_⟩
  obtain ⟨w, rfl⟩ : ∃ w, k = w + 1 := ⟨k - 1, by omega⟩
  rw [synthesize_spec]
  simp [SynthOutcome.state, expectedState, rowsFrom_length]

/-- Witness for C8 amended: over `ZMod 101` with `k = 3`. -/
theorem C8_structural_pass_witness :
    FibCircuit.synthesize (FibCircuit.without_witnesses
        (⟨.known 1, .known 1, .known 3, .known 2⟩ : FibCircuit (ZMod 101)))
        fibConfig neverFails = .ok (initState (ZMod 101)) ∧
    (FibCircuit.synthesize (⟨.known 1, .known 1, .known 3, .known 2⟩ :
        FibCircuit (ZMod 101)) fibConfig neverFails).state.rows.length
      = 3 - 1 :=
  C8_structural_pass
    (⟨.known 1, .known 1, .known 3, .known 2⟩ : FibCircuit (ZMod 101))
    neverFails 1 1 2 3 (by norm_num)

/-- C9 counterexample: with a backend that fails the first `assign_row`
call (`k = 3`, over `ZMod 101`), `synthesize` panics — its outcome is a
panic, not a returned `Err`: the error is not propagated to the caller
through the function result. -/
theorem C9_counterexample :
    FibCircuit.synthesize (⟨.known 1, .known 1, .known 3, .known 3⟩ :
        FibCircuit (ZMod 101)) fibConfig (fun n => n == 0)
      = .panicked (initState (ZMod 101)) ∧
    (FibCircuit.synthesize (⟨.known 1, .known 1, .known 3, .known 3⟩ :
        FibCircuit (ZMod 101)) fibConfig (fun n => n == 0)).isErr
      = false := by
  decide

/-- C9 amended: `synthesize` never propagates a backend error through its
returned `Result` (which is always `Ok(())`); when the first `assign_row`
call fails it stops immediately — no rows are produced — but by
panicking (`.unwrap()`), not by returning the error. -/
theorem C9_error_panic {F : Type} [Field F] (c : FibCircuit F)
    (fails : Nat → Bool) (a b z : F) (k : Nat) (h2 : 2 ≤ k)
    (h0 : fails 0 = true) :
    (FibCircuit.synthesize c fibConfig fails).isErr = false ∧
    FibCircuit.synthesize ⟨.known a, .known b, .known k, .known z⟩
        fibConfig fails = .panicked (initState F) := by
  refine ⟨synthesize_not_err c fibConfig fails, ?_⟩
  obtain ⟨w, rfl⟩ : ∃ w, k = w + 1 := ⟨k - 1, by omega⟩
  obtain ⟨s, rfl⟩ : ∃ s, w = s + 1 := ⟨w - 1, by omega⟩
  show synthLoop fibConfig fails (.known z) (s + 1) 0 (s + 1) (.known a)
      (.known b) none (initState F) = .panicked (initState F)
  have h : FibChip.assign_row fibConfig (fails 0) (initState F)
      (.known a) (.known b) none (.known z) ((0 : Nat) == (s + 1) - 1)
      = .error .backendError := by
    rw [h0]
    rfl
  exact synthLoop_succ_panic rfl h

/-- Witness for C9 amended: over `ZMod 101`, `k = 2`, backend failing the
first call. -/
theorem C9_error_panic_witness :
    ((FibCircuit.synthesize (⟨.known 1, .known 1, .known 2, .known 2⟩ :
        FibCircuit (ZMod 101)) fibConfig (fun n => n == 0)).isErr
      = false) ∧
    FibCircuit.synthesize (⟨.known (1 : ZMod 101), .known 1, .known 2,
        .known 2⟩ : FibCircuit (ZMod 101)) fibConfig (fun n => n == 0)
      = .panicked (initState (ZMod 101)) :=
  C9_error_panic
    (⟨.known 1, .known 1, .known 2, .known 2⟩ : FibCircuit (ZMod 101))
    (fun n => n == 0) 1 1 2 2 (by norm_num) rfl

/-- C10: Unenforced index — `configure` creates no instance column, and
no run of `synthesize` registers any instance binding, so satisfaction of
the synthesized constraints is identical for any two values of the public
instance data: `k`'s public/private role is unenforced. -/
theorem C10_instance_unenforced {F : Type} [Field F] [DecidableEq F]
    (cs : ConstraintSystem) (c : FibCircuit F) (fails : Nat → Bool)
    (inst1 inst2 : List F) :
    (FibCircuit.configure cs).2.numInstance = cs.numInstance ∧
    (FibCircuit.synthesize c fibConfig fails).state.instanceBindings
      = [] ∧
    satisfiedWith fibConfig (FibCircuit.synthesize c fibConfig fails).state
        inst1
      = satisfiedWith fibConfig
        (FibCircuit.synthesize c fibConfig fails).state inst2 := by
  refine ⟨rfl, synthesize_bindings c fibConfig fails, ?_⟩
  simp [satisfiedWith, synthesize_bindings c fibConfig fails]

end FibNaive
